import Mathlib

/-!
# WebRTC_NS_CPP: the command-line harness and the headers it relies on

A shallow embedding of `main.cc`, `ns/audio_buffer.h`, `ns/checks.h` and
`ns/splitting_filter.h`, followed by the properties proved about it.

Conventions of the embedding:

* C++ integers are `Int`/`Nat` with explicit conversions (`toInt32`,
  `toUInt32`, `toSizeT`) where a value changes width or signedness;
* a pointer into the interleaved sample buffer is its offset (in samples)
  from the start of that buffer;
* an operation whose C++ behaviour is undefined (division by zero, writing
  past a fixed-size array) returns `none`;
* calls into parts of the package that are only declared in these files are
  recorded as events or taken as parameters.
-/

namespace WebRtcNs

/-! ## Machine integers -/

/-- Conversion to a 32-bit signed `int` (two's complement wrap-around). -/
def toInt32 (x : Int) : Int := (x + 2 ^ 31) % 2 ^ 32 - 2 ^ 31

/-- Conversion to a 32-bit unsigned integer (`uint32_t`, `drwav_uint32`). -/
def toUInt32 (x : Int) : Nat := (x % 2 ^ 32).toNat

/-- Conversion to `size_t` on a 64-bit target (`static_cast<size_t>`). -/
def toSizeT (x : Int) : Nat := (x % 2 ^ 64).toNat

/-- The value is representable in a 32-bit signed `int`. -/
def fitsInt32 (x : Int) : Prop := -(2 ^ 31) ≤ x ∧ x ≤ 2 ^ 31 - 1

instance (x : Int) : Decidable (fitsInt32 x) := by
  unfold fitsInt32; infer_instance

/-! ## `ns/audio_buffer.h`: `StreamConfig` -/

/-- The private constant `StreamConfig::kChunkSizeMs`. -/
def kChunkSizeMs : Int := 10

/-- The private static `StreamConfig::calculate_frames`:
`static_cast<size_t>(kChunkSizeMs * sample_rate_hz / 1000)`; the product and
the quotient are computed in `int`, the quotient truncates towards zero. -/
def calculate_frames (sample_rate_hz : Int) : Nat :=
  toSizeT (Int.tdiv (toInt32 (kChunkSizeMs * sample_rate_hz)) 1000)

/-- The data members of `StreamConfig`. -/
structure StreamConfig where
  sample_rate_hz_ : Int
  num_channels_ : Nat
  has_keyboard_ : Bool
  num_frames_ : Nat
deriving DecidableEq, Repr

namespace StreamConfig

/-- The constructor `StreamConfig(sample_rate_hz, num_channels, has_keyboard)`;
the C++ defaults are `0`, `0` and `false`. -/
def new (sample_rate_hz : Int) (num_channels : Nat) (has_keyboard : Bool) : StreamConfig where
  sample_rate_hz_ := sample_rate_hz
  num_channels_ := num_channels
  has_keyboard_ := has_keyboard
  num_frames_ := calculate_frames sample_rate_hz

/-- The setter `set_sample_rate_hz`. -/
def set_sample_rate_hz (self : StreamConfig) (value : Int) : StreamConfig :=
  { self with sample_rate_hz_ := value, num_frames_ := calculate_frames value }

/-- The setter `set_num_channels`. -/
def set_num_channels (self : StreamConfig) (value : Nat) : StreamConfig :=
  { self with num_channels_ := value }

/-- The setter `set_has_keyboard`. -/
def set_has_keyboard (self : StreamConfig) (value : Bool) : StreamConfig :=
  { self with has_keyboard_ := value }

/-- The getter `sample_rate_hz()`. -/
def sample_rate_hz (self : StreamConfig) : Int := self.sample_rate_hz_

/-- The getter `num_channels()`. -/
def num_channels (self : StreamConfig) : Nat := self.num_channels_

/-- The getter `has_keyboard()`. -/
def has_keyboard (self : StreamConfig) : Bool := self.has_keyboard_

/-- The getter `num_frames()`. -/
def num_frames (self : StreamConfig) : Nat := self.num_frames_

/-- The getter `num_samples()`: `num_channels_ * num_frames_` in `size_t`. -/
def num_samples (self : StreamConfig) : Nat :=
  (self.num_channels_ * self.num_frames_) % 2 ^ 64

/-- The comparison `operator==`. -/
def eq (self other : StreamConfig) : Bool :=
  self.sample_rate_hz_ == other.sample_rate_hz_ &&
    self.num_channels_ == other.num_channels_ &&
    self.has_keyboard_ == other.has_keyboard_

/-- The comparison `operator!=`. -/
def ne (self other : StreamConfig) : Bool := !(self.eq other)

/-- One call of a setter of `StreamConfig`, with its argument. -/
inductive SetterCall where
  | set_sample_rate_hz (value : Int)
  | set_num_channels (value : Nat)
  | set_has_keyboard (value : Bool)
deriving DecidableEq, Repr

/-- The configuration after one setter call. -/
def call (self : StreamConfig) : SetterCall → StreamConfig
  | SetterCall.set_sample_rate_hz value => self.set_sample_rate_hz value
  | SetterCall.set_num_channels value => self.set_num_channels value
  | SetterCall.set_has_keyboard value => self.set_has_keyboard value

/-- The configuration after a sequence of setter calls, the first call first. -/
def calls (self : StreamConfig) : List SetterCall → StreamConfig
  | [] => self
  | c :: cs => (self.call c).calls cs

end StreamConfig

/-! ## `ns/audio_buffer.h`: constants of `AudioBuffer` -/

/-- The constant `AudioBuffer::kSplitBandSize`. -/
def kSplitBandSize : Nat := 160

/-- The constant `AudioBuffer::kMaxSampleRate`. -/
def kMaxSampleRate : Nat := 384000

/-- The constant `AudioBuffer::kMaxSplitFrameLength`. -/
def kMaxSplitFrameLength : Nat := 160

/-- The constant `AudioBuffer::kMaxNumBands`. -/
def kMaxNumBands : Nat := 3

/-- The sample rates the package is specified for. -/
def supportedRates : List Int := [8000, 16000, 24000, 32000, 48000]

/-! ## `main.cc`: the per-frame loop `nsProc` -/

/-- A call made by the loop of `nsProc` on the `AudioBuffer` or on the
`NoiseSuppressor`; `buffer` is the offset of the pointer handed to the call,
counted in 16-bit samples from `input`. -/
inductive Op where
  | CopyFrom (buffer : Nat) (stream_config : StreamConfig)
  | SplitIntoFrequencyBands
  | Analyze
  | Process
  | MergeFrequencyBands
  | CopyTo (stream_config : StreamConfig) (buffer : Nat)
deriving DecidableEq, Repr

/-- The body of the loop of `nsProc`, without the final pointer increment. -/
def nsProcBody (split_bands : Bool) (stream_config : StreamConfig) (buffer : Nat) : List Op :=
  [Op.CopyFrom buffer stream_config]
    ++ (if split_bands then [Op.SplitIntoFrequencyBands] else [])
    ++ [Op.Analyze, Op.Process]
    ++ (if split_bands then [Op.MergeFrequencyBands] else [])
    ++ [Op.CopyTo stream_config buffer]

/-- The loop `for (frame_index = 0; frame_index < frames; ++frame_index)` of
`nsProc`, from the state `(frame_index, buffer)`; the first argument bounds
the number of iterations still to run. -/
def nsProcLoop (split_bands : Bool) (stream_config : StreamConfig) (frames : Nat) :
    Nat → Nat → Nat → List Op
  | 0, _, _ => []
  | fuel + 1, frame_index, buffer =>
    if frame_index < frames then
      nsProcBody split_bands stream_config buffer
        ++ nsProcLoop split_bands stream_config frames fuel (frame_index + 1)
            (buffer + stream_config.num_frames)
    else []

/-- The function `nsProc(input, SampleCount, sampleRate, num_channels)`: its
return value and the calls made by its loop. `sampleRate` is a `size_t`
narrowed to `int` by the `StreamConfig` constructor, `num_channels` an `int`
widened to `size_t`. The result is `none` when `num_frames()` is zero, where
the C++ code divides by zero. -/
def nsProc (SampleCount sampleRate : Nat) (num_channels : Int) : Option (Int × List Op) :=
  let stream_config := StreamConfig.new (toInt32 sampleRate) (toSizeT num_channels) false
  let split_bands : Bool := decide (sampleRate > 16000)
  if stream_config.num_frames = 0 then none
  else
    let frames := SampleCount / stream_config.num_frames
    some (0, nsProcLoop split_bands stream_config frames frames 0 0)

/-- The offsets handed to `CopyFrom`, in call order. -/
def copyFromOffsets : List Op → List Nat
  | [] => []
  | Op.CopyFrom buffer _ :: ops => buffer :: copyFromOffsets ops
  | _ :: ops => copyFromOffsets ops

/-- The offsets handed to `CopyTo`, in call order. -/
def copyToOffsets : List Op → List Nat
  | [] => []
  | Op.CopyTo _ buffer :: ops => buffer :: copyToOffsets ops
  | _ :: ops => copyToOffsets ops

/-! ## `main.cc`: `splitpath` and the derived output path

A C string is the list of its characters before the terminating NUL; reading
at the position of the terminator gives NUL. -/

/-- The terminator of a C string. -/
def NUL : Char := Char.ofNat 0

/-- The character `s[i]` of a NUL-terminated string. -/
def charAt (s : List Char) (i : Nat) : Char := s.getD i NUL

/-- The four strings `splitpath` stores through its non-null output pointers. -/
structure SplitPath where
  drv : List Char
  dir : List Char
  name : List Char
  ext : List Char
deriving DecidableEq, Repr

/-- The loop `for (end = path; *end && *end != ':';) end++;`: the offset of
`end` from `path` when the loop leaves. -/
def scanEnd : List Char → Nat
  | [] => 0
  | c :: cs => if c ≠ NUL ∧ c ≠ ':' then scanEnd cs + 1 else 0

/-- The loop
`for (p = end; p > path && *--p != '\\' && *p != '/';) if (*p == '.') { end = p; break; }`
started with `p` at the given offset: the value of `end` when the loop leaves. -/
def findExt (path : List Char) (end_ : Nat) : Nat → Nat
  | 0 => end_
  | p + 1 =>
    if charAt path p ≠ '\\' ∧ charAt path p ≠ '/' then
      if charAt path p = '.' then p else findExt path end_ p
    else end_

/-- The loop `for (p = end; p > path;) if (*--p == '\\' || *p == '/') { p++; break; }`
started with `p` at the given offset: the value of `p` when the loop leaves. -/
def findName (path : List Char) : Nat → Nat
  | 0 => 0
  | p + 1 =>
    if charAt path p = '\\' ∨ charAt path p = '/' then p + 1 else findName path p

/-- The loop `for (s = end; (*ext = *s++);) ext++;`: the characters copied
before the terminator. -/
def copyString (path : List Char) (from_ : Nat) : List Char :=
  (path.drop from_).takeWhile (fun c => c ≠ NUL)

/-- The function `splitpath(path, drv, dir, name, ext)` called with four
non-null output pointers. -/
def splitpath (path : List Char) : SplitPath :=
  let hasDrive : Bool := decide (charAt path 0 ≠ NUL ∧ charAt path 1 = ':')
  let drv := if hasDrive then [charAt path 0, charAt path 1] else []
  let path := if hasDrive then path.drop 2 else path
  let end0 := scanEnd path
  let end_ := findExt path end0 end0
  let ext := copyString path end_
  let p := findName path end_
  let name := (path.take end_).drop p
  let dir := path.take p
  { drv := drv, dir := dir, name := name, ext := ext }

/-- The output file name `main` builds when only the input file is given:
`splitpath` into `drive[3]`, `dir[256]`, `fname[256]`, `ext[256]`, then
`sprintf(out_file, "%s%s%s_out%s", drive, dir, fname, ext)` into
`out_file[1024]`. The result is `none` when a string does not fit its array. -/
def deriveOutFile (in_file : List Char) : Option (List Char) :=
  let r := splitpath in_file
  if r.drv.length < 3 ∧ r.dir.length < 256 ∧ r.name.length < 256 ∧ r.ext.length < 256 then
    let out_file := r.drv ++ r.dir ++ r.name ++ ['_', 'o', 'u', 't'] ++ r.ext
    if out_file.length < 1024 then some out_file else none
  else none

/-! ### The output path as the specification words it -/

/-- A path separator, as `splitpath` recognises them. -/
def isSeparator (c : Char) : Bool := c == '/' || c == '\\'

/-- The final path component: the characters after the last separator. -/
def finalComponent (s : List Char) : List Char :=
  (s.reverse.takeWhile (fun c => !isSeparator c)).reverse

/-- The extension as the specification words it: the suffix that begins at the
last `.` of the final path component, empty when that component has no `.`. -/
def specExt (s : List Char) : List Char :=
  if '.' ∈ finalComponent s then
    '.' :: ((finalComponent s).reverse.takeWhile (fun c => c ≠ '.')).reverse
  else []

/-- The part of the path before the extension. -/
def specStem (s : List Char) : List Char := s.take (s.length - (specExt s).length)

/-- The output path as the specification words it: `_out` inserted immediately
before the extension. -/
def specOutFile (s : List Char) : List Char :=
  specStem s ++ ['_', 'o', 'u', 't'] ++ specExt s

/-- The drive part of a path: its first two characters when the second one is
a colon. -/
def drivePart (path : List Char) : List Char :=
  if charAt path 0 ≠ NUL ∧ charAt path 1 = ':' then path.take 2 else []

/-- The text after the drive part up to, and excluding, the next colon. -/
def headPart (path : List Char) : List Char :=
  (path.drop (drivePart path).length).takeWhile (fun c => c ≠ ':')

/-- The text from the first colon after the drive part on. -/
def streamPart (path : List Char) : List Char :=
  (path.drop (drivePart path).length).dropWhile (fun c => c ≠ ':')

/-! ## `main.cc`: WAV input and output, `WebRtc_DeNoise` and `main` -/

/-- What `drwav_open_file_and_read_pcm_frames_s16` stores through its output
pointers for a file it could read: `unsigned int channels`,
`uint32_t sampleRate`, `uint64_t totalSampleCount`. -/
structure WavInfo where
  channels : Nat
  sampleRate : Nat
  totalSampleCount : Nat
deriving DecidableEq, Repr

/-- The two container kinds named where `wavWrite_s16` fills the format. -/
inductive drwav_container where
  | drwav_container_riff
  | drwav_container_w64
deriving DecidableEq, Repr

/-- The fields of `drwav_data_format` that `wavWrite_s16` fills. -/
structure drwav_data_format where
  container : drwav_container
  format : Nat
  channels : Nat
  sampleRate : Nat
  bitsPerSample : Nat
deriving DecidableEq, Repr

/-- What lies outside the program during one run: the value of the constant
`DR_WAVE_FORMAT_PCM` of `dr_wav.h`, what reading a file yields (`none` for a
NULL result), whether `calloc` of that many `short`s succeeds, and the number
of frames `drwav_write_pcm_frames` reports as written. -/
structure Env where
  DR_WAVE_FORMAT_PCM : Nat
  readFile : List Char → Option WavInfo
  calloc : Nat → Bool
  written : List Char → drwav_data_format → Nat → Nat

/-- The arguments with which `wavWrite_s16` drives the WAV writer. -/
structure WriteCall where
  filename : List Char
  format : drwav_data_format
  totalSampleCount : Nat
deriving DecidableEq, Repr

/-- The size in bytes of one `int16_t` sample, `sizeof(*buffer)`. -/
def sizeofInt16 : Nat := 2

/-- The function `wavWrite_s16(filename, buffer, sampleRate, totalSampleCount, channels)`:
the call it makes on the writer and, when fewer frames were written than
asked for, the status it passes to `exit`. -/
def wavWrite_s16 (env : Env) (filename : List Char) (sampleRate totalSampleCount channels : Nat) :
    WriteCall × Option Int :=
  let format : drwav_data_format :=
    { container := drwav_container.drwav_container_riff
      channels := channels
      sampleRate := toUInt32 sampleRate
      bitsPerSample := sizeofInt16 * 8
      format := env.DR_WAVE_FORMAT_PCM }
  let samplesWritten := env.written filename format totalSampleCount
  ({ filename := filename, format := format, totalSampleCount := totalSampleCount },
    if samplesWritten ≠ totalSampleCount then some 1 else none)

/-- The function `wavRead_s16(filename, &sampleRate, &totalSampleCount, &channels)`;
`none` stands for the NULL buffer. -/
def wavRead_s16 (env : Env) (filename : List Char) : Option WavInfo :=
  env.readFile filename

/-- What one call of `WebRtc_DeNoise` did: the trace of `nsProc` when it ran,
the call on the WAV writer when one was made, and the status handed to `exit`
when the process was ended there. -/
structure DeNoiseRun where
  processed : Option (List Op)
  write : Option WriteCall
  exited : Option Int
deriving DecidableEq, Repr

/-- The function `WebRtc_DeNoise(in_file, out_file)`. The result is `none`
where `nsProc` has no defined behaviour. -/
def WebRtc_DeNoise (env : Env) (in_file out_file : List Char) : Option DeNoiseRun :=
  match wavRead_s16 env in_file with
  | some wav =>
    if env.calloc wav.totalSampleCount then
      match nsProc wav.totalSampleCount wav.sampleRate (toInt32 wav.channels) with
      | some (_, ops) =>
        let w := wavWrite_s16 env out_file wav.sampleRate (toUInt32 wav.totalSampleCount)
          wav.channels
        some { processed := some ops, write := some w.1, exited := w.2 }
      | none => none
    else some { processed := none, write := none, exited := none }
  | none => some { processed := none, write := none, exited := none }

/-- What one run of the program did: its exit status, the output file name it
used and the call it made on the WAV writer. -/
structure MainRun where
  status : Int
  out_file : Option (List Char)
  write : Option WriteCall
deriving DecidableEq, Repr

/-- The status of the process after `WebRtc_DeNoise`: the one handed to `exit`
when `wavWrite_s16` ended the process, else the `return 0` of `main`. -/
def finish (out_file : List Char) (run : DeNoiseRun) : MainRun :=
  { status := match run.exited with
      | some code => code
      | none => 0
    out_file := some out_file
    write := run.write }

/-- The function `main(argc, argv)`, with `argv` the list of all `argc`
arguments, program name included. The result is `none` where the behaviour is
undefined. -/
def main (env : Env) (argv : List (List Char)) : Option MainRun :=
  match argv with
  | [] => some { status := -1, out_file := none, write := none }
  | [_] => some { status := -1, out_file := none, write := none }
  | _ :: in_file :: out_file :: _ =>
    (WebRtc_DeNoise env in_file out_file).map (finish out_file)
  | [_, in_file] =>
    match deriveOutFile in_file with
    | some out_file => (WebRtc_DeNoise env in_file out_file).map (finish out_file)
    | none => none

/-! ## `ns/audio_buffer.h`: the accessors of `AudioBuffer` -/

/-- The enumeration `Band`. -/
inductive Band where
  | kBand0To8kHz
  | kBand8To16kHz
  | kBand16To24kHz
deriving DecidableEq, Repr

/-- The integer value of an enumerator of `Band`. -/
def Band.toNat : Band → Nat
  | Band.kBand0To8kHz => 0
  | Band.kBand8To16kHz => 1
  | Band.kBand16To24kHz => 2

/-- The three accessors of `ChannelBuffer<float>` that `AudioBuffer` calls.
The class is declared in `channel_buffer.h`; here `CB` is the type of a channel
buffer and `P` the type of the pointer arrays its accessors return. -/
structure ChannelBufferViews (CB P : Type) where
  channels : CB → P
  channelsOfBand : CB → Nat → P
  bands : CB → Nat → P

/-- The two storage members of `AudioBuffer` read by its accessors: `data_`,
always allocated, and `split_data_`, `none` when the pointer is null. -/
structure AudioBuffer (CB : Type) where
  data_ : CB
  split_data_ : Option CB

namespace AudioBuffer

/-- The accessor `channels()`; `none` would be a null pointer. -/
def channels {CB P : Type} (v : ChannelBufferViews CB P) (self : AudioBuffer CB) : Option P :=
  some (v.channels self.data_)

/-- The accessor `channels_const()`. -/
def channels_const {CB P : Type} (v : ChannelBufferViews CB P) (self : AudioBuffer CB) : Option P :=
  some (v.channels self.data_)

/-- The accessor `split_bands_const(channel)`. -/
def split_bands_const {CB P : Type} (v : ChannelBufferViews CB P) (self : AudioBuffer CB) (channel : Nat) :
    Option P :=
  match self.split_data_ with
  | some split => some (v.bands split channel)
  | none => some (v.bands self.data_ channel)

/-- The accessor `split_bands(channel)`. -/
def split_bands {CB P : Type} (v : ChannelBufferViews CB P) (self : AudioBuffer CB) (channel : Nat) :
    Option P :=
  match self.split_data_ with
  | some split => some (v.bands split channel)
  | none => some (v.bands self.data_ channel)

/-- The accessor `split_channels_const(band)`. -/
def split_channels_const {CB P : Type} (v : ChannelBufferViews CB P) (self : AudioBuffer CB) (band : Band) :
    Option P :=
  match self.split_data_ with
  | some split => some (v.channelsOfBand split band.toNat)
  | none => if band = Band.kBand0To8kHz then some (v.channels self.data_) else none

end AudioBuffer

/-! ## `ns/checks.h`: `RTC_CHECK` and `RTC_DCHECK` -/

/-- The preprocessor symbols that select the variants of the check macros. -/
structure BuildFlags where
  NDEBUG : Bool
  DCHECK_ALWAYS_ON : Bool
  RTC_DISABLE_CHECK_MSG : Bool
deriving DecidableEq, Repr

/-- The symbol `RTC_DCHECK_IS_ON`: `!defined(NDEBUG) || defined(DCHECK_ALWAYS_ON)`. -/
def RTC_DCHECK_IS_ON (flags : BuildFlags) : Bool := !flags.NDEBUG || flags.DCHECK_ALWAYS_ON

/-- The symbol `RTC_CHECK_MSG_ENABLED`. -/
def RTC_CHECK_MSG_ENABLED (flags : BuildFlags) : Bool := !flags.RTC_DISABLE_CHECK_MSG

/-- The text macro `RTC_CHECK_EVAL_MESSAGE(message)`. -/
def RTC_CHECK_EVAL_MESSAGE (flags : BuildFlags) (message : String) : String :=
  if RTC_CHECK_MSG_ENABLED flags then message else ""

/-- A running function: the text printed so far and the program state. -/
structure Machine (σ : Type) where
  out : List String
  state : σ

/-- Whether control reaches the statement that follows. -/
inductive Flow where
  | next
  | stop
deriving DecidableEq, Repr

/-- A statement: the machine it leaves and where control goes. -/
abbrev Stmt (σ : Type) := Machine σ → Machine σ × Flow

/-- The sequence `s; t`. -/
def Stmt.seq {σ : Type} (s t : Stmt σ) : Stmt σ := fun m =>
  match s m with
  | (m1, Flow.next) => t m1
  | (m1, Flow.stop) => (m1, Flow.stop)

/-- A statement that updates the program state and falls through. -/
def Stmt.update {σ : Type} (f : σ → σ) : Stmt σ := fun m =>
  ({ m with state := f m.state }, Flow.next)

/-- The library call `printf` of one formatted line; it returns to its caller. -/
def printf {σ : Type} (line : String) : Stmt σ := fun m =>
  ({ m with out := m.out ++ [line] }, Flow.next)

/-- The macro `rtc_FatalMessage(file, line, msg)`, which expands to
`printf("[%s:%d]%s \n", file, line, msg)`. -/
def rtc_FatalMessage {σ : Type} (file : String) (line : Nat) (msg : String) : Stmt σ :=
  printf ("[" ++ file ++ ":" ++ toString line ++ "]" ++ msg ++ " \n")

/-- The macro `RTC_CHECK(condition)` expanded at `file:line`; `text` is the
spelling of the condition (`#condition`). -/
def RTC_CHECK {σ : Type} (flags : BuildFlags) (file : String) (line : Nat) (text : String)
    (condition : σ → Bool) : Stmt σ := fun m =>
  if !(condition m.state) then
    rtc_FatalMessage file line (RTC_CHECK_EVAL_MESSAGE flags ("CHECK failed: " ++ text)) m
  else (m, Flow.next)

/-- The macro `RTC_DCHECK(condition)` expanded at `file:line`. -/
def RTC_DCHECK {σ : Type} (flags : BuildFlags) (file : String) (line : Nat) (text : String)
    (condition : σ → Bool) : Stmt σ := fun m =>
  if RTC_DCHECK_IS_ON flags && !(condition m.state) then
    rtc_FatalMessage file line (RTC_CHECK_EVAL_MESSAGE flags ("DCHECK failed: " ++ text)) m
  else (m, Flow.next)

/-! ## `ns/splitting_filter.h`: `TwoBandsStates` -/

/-- The constant `TwoBandsStates::kStateSize`. -/
def kStateSize : Nat := 6

/-- The size in bytes of one `int`. -/
def sizeofInt : Nat := 4

/-- The library call `memset(a, value, n)` on an array of `int`, for `n` a
multiple of `sizeof(int)`: each of the first `n / sizeof(int)` elements gets
the byte `value` in its four bytes. -/
def memset (a : List Int) (value : Nat) (n : Nat) : List Int :=
  (a.take (n / sizeofInt)).map (fun _ => toInt32 ((value % 256 : Nat) * 16843009))
    ++ a.drop (n / sizeofInt)

/-- The four arrays of `TwoBandsStates`. -/
structure TwoBandsStates where
  analysis_state1 : List Int
  analysis_state2 : List Int
  synthesis_state1 : List Int
  synthesis_state2 : List Int
deriving DecidableEq, Repr

/-- The size `sizeof(a)` of an array of `int`. -/
def sizeofArray (a : List Int) : Nat := a.length * sizeofInt

/-- The default constructor `TwoBandsStates()`: every array is
value-initialised by its `{}` initialiser, then cleared by `memset`. -/
def TwoBandsStates.new : TwoBandsStates :=
  let analysis_state1 : List Int := List.replicate kStateSize 0
  let analysis_state2 : List Int := List.replicate kStateSize 0
  let synthesis_state1 : List Int := List.replicate kStateSize 0
  let synthesis_state2 : List Int := List.replicate kStateSize 0
  { analysis_state1 := memset analysis_state1 0 (sizeofArray analysis_state1)
    analysis_state2 := memset analysis_state2 0 (sizeofArray analysis_state2)
    synthesis_state1 := memset synthesis_state1 0 (sizeofArray synthesis_state1)
    synthesis_state2 := memset synthesis_state2 0 (sizeofArray synthesis_state2) }

/-! ## Properties -/

/-- The frame count of an in-range rate, computed without wrap-around. -/
theorem calculate_frames_of_le (r : Int) (h0 : 0 ≤ r) (hmax : r ≤ (kMaxSampleRate : Int)) :
    calculate_frames r = (r / 100).toNat := by
  have hmax' : r ≤ 384000 := by simpa [kMaxSampleRate] using hmax
  unfold calculate_frames toSizeT toInt32 kChunkSizeMs
  have h1 : (10 * r + 2 ^ 31) % 2 ^ 32 - 2 ^ 31 = 10 * r := by omega
  rw [h1, Int.tdiv_eq_ediv (by omega) (by norm_num)]
  have h2 : 10 * r / 1000 = r / 100 := by omega
  rw [h2]
  have h3 : r / 100 % 2 ^ 64 = r / 100 := by omega
  rw [h3]

/-- C2: for every rate from 0 to `AudioBuffer::kMaxSampleRate` the product
`kChunkSizeMs * rate` fits a 32-bit signed `int` and `calculate_frames`, hence
`num_frames()` of a `StreamConfig` built with any channel count, is
`floor(rate / 100)`; on the supported rates 8000, 16000, 24000, 32000 and
48000 this gives 80, 160, 240, 320 and 480 frames. -/
theorem calculate_frames_eq_rate_div_100 :
    (∀ r : Int, 0 ≤ r → r ≤ (kMaxSampleRate : Int) →
      fitsInt32 (kChunkSizeMs * r) ∧
      calculate_frames r = (r / 100).toNat ∧
      ∀ (c : Nat) (kb : Bool), (StreamConfig.new r c kb).num_frames = (r / 100).toNat) ∧
    (∀ r ∈ supportedRates, ∀ (c : Nat) (kb : Bool),
      ((StreamConfig.new r c kb).num_frames : Int) = r / 100) ∧
    (∀ (c : Nat) (kb : Bool),
      supportedRates.map (fun r => (StreamConfig.new r c kb).num_frames)
        = [80, 160, 240, 320, 480]) := by
  refine ⟨?_, ?_, ?_⟩
  · intro r h0 hmax
    have hmax' : r ≤ 384000 := by simpa [kMaxSampleRate] using hmax
    refine ⟨?_, calculate_frames_of_le r h0 hmax, ?_⟩
    · unfold fitsInt32 kChunkSizeMs
      constructor <;> omega
    · intro c kb
      exact calculate_frames_of_le r h0 hmax
  · intro r hr c kb
    have hr' : r = 8000 ∨ r = 16000 ∨ r = 24000 ∨ r = 32000 ∨ r = 48000 := by
      simpa [supportedRates] using hr
    have hlo : 0 ≤ r := by omega
    have hhi : r ≤ (kMaxSampleRate : Int) := by
      have : r ≤ 384000 := by omega
      simpa [kMaxSampleRate] using this
    show ((calculate_frames r : Nat) : Int) = r / 100
    rw [calculate_frames_of_le r hlo hhi]
    omega
  · intro c kb
    simp only [supportedRates, List.map, StreamConfig.num_frames, StreamConfig.new]
    decide

/-- The frame count at 48 kHz and at the largest rate, from the general result. -/
theorem calculate_frames_eq_rate_div_100_witness :
    calculate_frames 48000 = 480 ∧ calculate_frames 384000 = 3840 ∧
      fitsInt32 (kChunkSizeMs * 384000) := by
  have h48 := calculate_frames_eq_rate_div_100.1 48000 (by decide) (by decide)
  have hmax := calculate_frames_eq_rate_div_100.1 384000 (by decide) (by decide)
  exact ⟨h48.2.1.trans (by decide), hmax.2.1.trans (by decide), hmax.1⟩

/-! ### The loop of `nsProc` -/

/-- The loop of `nsProc`, run for as many iterations as remain, makes the
calls of its body once per iteration, the pointer advancing by `num_frames()`
between iterations. -/
theorem nsProcLoop_eq_flatMap (split_bands : Bool) (stream_config : StreamConfig)
    (frames fuel : Nat) :
    ∀ frame_index buffer : Nat, frame_index + fuel = frames →
      nsProcLoop split_bands stream_config frames fuel frame_index buffer
        = (List.range fuel).flatMap
            (fun k => nsProcBody split_bands stream_config
              (buffer + k * stream_config.num_frames)) := by
  induction fuel with
  | zero => intro frame_index buffer _; rfl
  | succ fuel ih =>
    intro frame_index buffer h
    have hlt : frame_index < frames := by omega
    rw [nsProcLoop, if_pos hlt, ih (frame_index + 1) (buffer + stream_config.num_frames)
      (by omega), List.range_succ_eq_map, List.flatMap_cons, List.flatMap_map]
    simp only [Nat.zero_mul, Nat.add_zero, Nat.succ_eq_add_one]
    congr 1
    apply congrArg
    funext k
    congr 1
    rw [Nat.add_mul, Nat.one_mul]
    omega

/-- C1 (evaluation at the failing input): on 160 stereo frames at 8000 Hz,
two chunks of `num_samples() = 160` interleaved samples each, the loop of
`nsProc` hands `CopyFrom` and `CopyTo` the offsets 0 and 80: the second chunk
starts at sample 80, not at sample 160. -/
theorem nsProc_stereo_chunk_offsets :
    (nsProc 160 8000 2).map (fun r => copyFromOffsets r.2) = some [0, 80] ∧
    (nsProc 160 8000 2).map (fun r => copyToOffsets r.2) = some [0, 80] ∧
    (StreamConfig.new (toInt32 8000) (toSizeT 2) false).num_samples = 160 ∧
    (StreamConfig.new (toInt32 8000) (toSizeT 2) false).num_frames = 80 := by
  decide

/-- C3: whenever the frame length is not zero, `nsProc` returns 0 after
`SampleCount / num_frames()` iterations, each of which calls, in this order,
`CopyFrom`, `SplitIntoFrequencyBands`, `Analyze`, `Process`,
`MergeFrequencyBands`, `CopyTo` when the sample rate is above 16000 Hz and
`CopyFrom`, `Analyze`, `Process`, `CopyTo` otherwise; with a zero frame length
the frame count is a division by zero. -/
theorem nsProc_operation_order (SampleCount sampleRate : Nat) (num_channels : Int) :
    nsProc SampleCount sampleRate num_channels =
      if (StreamConfig.new (toInt32 sampleRate) (toSizeT num_channels) false).num_frames = 0
      then none
      else some (0,
        (List.range (SampleCount /
            (StreamConfig.new (toInt32 sampleRate) (toSizeT num_channels) false).num_frames)).flatMap
          (fun k =>
            if 16000 < sampleRate then
              [Op.CopyFrom
                  (k * (StreamConfig.new (toInt32 sampleRate) (toSizeT num_channels) false).num_frames)
                  (StreamConfig.new (toInt32 sampleRate) (toSizeT num_channels) false),
                Op.SplitIntoFrequencyBands, Op.Analyze, Op.Process, Op.MergeFrequencyBands,
                Op.CopyTo (StreamConfig.new (toInt32 sampleRate) (toSizeT num_channels) false)
                  (k * (StreamConfig.new (toInt32 sampleRate) (toSizeT num_channels) false).num_frames)]
            else
              [Op.CopyFrom
                  (k * (StreamConfig.new (toInt32 sampleRate) (toSizeT num_channels) false).num_frames)
                  (StreamConfig.new (toInt32 sampleRate) (toSizeT num_channels) false),
                Op.Analyze, Op.Process,
                Op.CopyTo (StreamConfig.new (toInt32 sampleRate) (toSizeT num_channels) false)
                  (k * (StreamConfig.new (toInt32 sampleRate) (toSizeT num_channels) false).num_frames)])) := by
  unfold nsProc
  simp only []
  split
  · rfl
  · rw [nsProcLoop_eq_flatMap _ _ _ _ 0 0 (by omega)]
    congr 2
    apply congrArg
    funext k
    by_cases hr : 16000 < sampleRate
    · simp [nsProcBody, hr]
    · simp [nsProcBody, hr]
/-! ### `splitpath` and the derived output path -/

/-- Reading inside the middle block of a three-part string. -/
theorem charAt_append_mid (x b y : List Char) (j : Nat) (hj : j < b.length) :
    charAt (x ++ (b ++ y)) (x.length + j) ∈ b := by
  unfold charAt
  rw [List.getD_append_right _ _ _ _ (by omega), Nat.add_sub_cancel_left,
    List.getD_append _ _ _ _ hj, List.getD_eq_getElem _ _ hj]
  exact List.getElem_mem hj

/-- Reading the character that follows a known block. -/
theorem charAt_append_cons (x : List Char) (c : Char) (y : List Char) :
    charAt (x ++ c :: y) x.length = c := by
  unfold charAt
  rw [List.getD_append_right _ _ _ _ (Nat.le_refl _)]
  simp

/-- Every list splits at its last element that fails a test: what follows that
element is the longest suffix passing the test. -/
theorem split_at_last (p : Char → Bool) (l : List Char) :
    ∃ x, l = x ++ (l.reverse.takeWhile p).reverse ∧
      (x = [] ∨ ∃ x0 c, x = x0 ++ [c] ∧ p c = false) := by
  refine ⟨(l.reverse.dropWhile p).reverse, ?_, ?_⟩
  · rw [← List.reverse_append, List.takeWhile_append_dropWhile, List.reverse_reverse]
  · cases hd : l.reverse.dropWhile p with
    | nil => left; rfl
    | cons c r =>
      right
      refine ⟨r.reverse, c, by simp, ?_⟩
      have h := List.head_dropWhile_not p l.reverse (by rw [hd]; simp)
      simpa [hd] using h

/-- The forward scan of `splitpath` stops at the first colon of a string
without NUL. -/
theorem scanEnd_eq_length_takeWhile (s : List Char) (hnul : ∀ c ∈ s, c ≠ NUL) :
    scanEnd s = (s.takeWhile (fun c => c ≠ ':')).length := by
  induction s with
  | nil => rfl
  | cons c cs ih =>
    have hc : c ≠ NUL := hnul c (List.mem_cons_self _ _)
    have ih1 := ih (fun d hd => hnul d (List.mem_cons_of_mem _ hd))
    by_cases h : c = ':'
    · simp [scanEnd, h]
    · simp [scanEnd, h, hc, ih1]

/-- Copying a string without NUL copies all of it. -/
theorem copyString_eq_drop (s : List Char) (hnul : ∀ c ∈ s, c ≠ NUL) (n : Nat) :
    copyString s n = s.drop n := by
  unfold copyString
  rw [List.takeWhile_eq_self_iff]
  intro c hc
  simpa using hnul c (List.mem_of_mem_drop hc)

/-- The backward search for the extension passes over characters that are
neither a dot nor a separator. -/
theorem findExt_skip (s : List Char) (e lo n : Nat)
    (h : ∀ i, lo ≤ i → i < lo + n →
      charAt s i ≠ '.' ∧ charAt s i ≠ '\\' ∧ charAt s i ≠ '/') :
    findExt s e (lo + n) = findExt s e lo := by
  induction n with
  | zero => rfl
  | succ n ih =>
    have hn := h (lo + n) (by omega) (by omega)
    rw [← Nat.add_assoc, findExt, if_pos ⟨hn.2.1, hn.2.2⟩, if_neg hn.1]
    exact ih (fun i h1 h2 => h i h1 (by omega))

/-- The backward search for the start of the name passes over characters that
are not separators. -/
theorem findName_skip (s : List Char) (lo n : Nat)
    (h : ∀ i, lo ≤ i → i < lo + n → charAt s i ≠ '\\' ∧ charAt s i ≠ '/') :
    findName s (lo + n) = findName s lo := by
  induction n with
  | zero => rfl
  | succ n ih =>
    have hn := h (lo + n) (by omega) (by omega)
    rw [← Nat.add_assoc, findName, if_neg (by simp [hn.1, hn.2])]
    exact ih (fun i h1 h2 => h i h1 (by omega))

/-- The backward search for the start of the name stops right after the last
separator, or at the start of the string. -/
theorem findName_at_boundary (x z : List Char)
    (hx : x = [] ∨ ∃ x0 c, x = x0 ++ [c] ∧ isSeparator c = true) :
    findName (x ++ z) x.length = x.length := by
  rcases hx with rfl | ⟨x0, c, rfl, hc⟩
  · rfl
  · have hlen : (x0 ++ [c]).length = x0.length + 1 := by simp
    have hch : charAt (x0 ++ [c] ++ z) x0.length = c := by
      rw [List.append_assoc]; exact charAt_append_cons x0 c z
    have hsep : c = '\\' ∨ c = '/' := by
      simp [isSeparator] at hc
      tauto
    rw [hlen, findName, hch, if_pos hsep]

/-- The backward search for the extension gives up at the last separator and
at the start of the string. -/
theorem findExt_at_boundary (x z : List Char) (e : Nat)
    (hx : x = [] ∨ ∃ x0 c, x = x0 ++ [c] ∧ isSeparator c = true) :
    findExt (x ++ z) e x.length = e := by
  rcases hx with rfl | ⟨x0, c, rfl, hc⟩
  · rfl
  · have hlen : (x0 ++ [c]).length = x0.length + 1 := by simp
    have hch : charAt (x0 ++ [c] ++ z) x0.length = c := by
      rw [List.append_assoc]; exact charAt_append_cons x0 c z
    have hsep : c = '\\' ∨ c = '/' := by
      simp [isSeparator] at hc
      tauto
    rw [hlen, findExt, hch, if_neg (by rcases hsep with h | h <;> simp [h])]

/-- The two backward searches of `splitpath` on a string whose part before the
first colon is `pre ++ a ++ '.' :: b`, where `pre` is empty or ends in a
separator, `a` and `b` hold no separator and `b` no dot: the extension starts
at the dot and the name right after `pre`. -/
theorem searches_with_dot (pre a b y : List Char) (e : Nat)
    (hpre : pre = [] ∨ ∃ x0 c, pre = x0 ++ [c] ∧ isSeparator c = true)
    (ha : ∀ c ∈ a, isSeparator c = false)
    (hb : ∀ c ∈ b, isSeparator c = false ∧ c ≠ '.') :
    findExt (pre ++ (a ++ '.' :: b) ++ y) e (pre ++ (a ++ '.' :: b)).length
        = (pre ++ a).length ∧
      findName (pre ++ (a ++ '.' :: b) ++ y) (pre ++ a).length = pre.length := by
  have hsep : ∀ c : Char, isSeparator c = false → c ≠ '\\' ∧ c ≠ '/' := by
    intro c hc
    simp [isSeparator] at hc
    tauto
  constructor
  · have hlen : (pre ++ (a ++ '.' :: b)).length = ((pre ++ a).length + 1) + b.length := by
      simp; omega
    have hs : pre ++ (a ++ '.' :: b) ++ y = (pre ++ a ++ ['.']) ++ (b ++ y) := by simp
    rw [hlen, findExt_skip]
    · have hch : charAt (pre ++ (a ++ '.' :: b) ++ y) (pre ++ a).length = '.' := by
        have : pre ++ (a ++ '.' :: b) ++ y = (pre ++ a) ++ '.' :: (b ++ y) := by simp
        rw [this]; exact charAt_append_cons _ _ _
      rw [findExt, hch, if_pos (by decide), if_pos rfl]
    · intro i h1 h2
      have hi : i = (pre ++ a ++ ['.']).length + (i - ((pre ++ a).length + 1)) := by
        simp at h1 ⊢; omega
      have hmem : charAt (pre ++ (a ++ '.' :: b) ++ y) i ∈ b := by
        rw [hs, hi]
        exact charAt_append_mid _ _ _ _ (by omega)
      exact ⟨(hb _ hmem).2, hsep _ (hb _ hmem).1⟩
  · have hlen : (pre ++ a).length = pre.length + a.length := by simp
    have hs : pre ++ (a ++ '.' :: b) ++ y = pre ++ (a ++ ('.' :: b ++ y)) := by simp
    rw [hlen, findName_skip]
    · rw [hs]; exact findName_at_boundary pre _ hpre
    · intro i h1 h2
      have hi : i = pre.length + (i - pre.length) := by omega
      have hmem : charAt (pre ++ (a ++ '.' :: b) ++ y) i ∈ a := by
        rw [hs, hi]
        exact charAt_append_mid _ _ _ _ (by omega)
      exact hsep _ (ha _ hmem)

/-- The two backward searches of `splitpath` on a string whose part before the
first colon is `pre ++ comp`, where `pre` is empty or ends in a separator and
`comp` holds neither a separator nor a dot: the extension search leaves `end`
where it was and the name starts right after `pre`. -/
theorem searches_without_dot (pre comp y : List Char)
    (hpre : pre = [] ∨ ∃ x0 c, pre = x0 ++ [c] ∧ isSeparator c = true)
    (hcomp : ∀ c ∈ comp, isSeparator c = false ∧ c ≠ '.') :
    findExt (pre ++ comp ++ y) (pre ++ comp).length (pre ++ comp).length
        = (pre ++ comp).length ∧
      findName (pre ++ comp ++ y) (pre ++ comp).length = pre.length := by
  have hsep : ∀ c : Char, isSeparator c = false → c ≠ '\\' ∧ c ≠ '/' := by
    intro c hc
    simp [isSeparator] at hc
    tauto
  have hs : pre ++ comp ++ y = pre ++ (comp ++ y) := by simp
  have hmem : ∀ i, pre.length ≤ i → i < pre.length + comp.length →
      charAt (pre ++ comp ++ y) i ∈ comp := by
    intro i h1 h2
    have hi : i = pre.length + (i - pre.length) := by omega
    rw [hs, hi]
    exact charAt_append_mid _ _ _ _ (by omega)
  have hlen : (pre ++ comp).length = pre.length + comp.length := by simp
  constructor
  · conv_lhs => arg 3; rw [hlen]
    rw [findExt_skip _ _ _ _ (fun i h1 h2 =>
      ⟨(hcomp _ (hmem i h1 h2)).2, hsep _ (hcomp _ (hmem i h1 h2)).1⟩), hs]
    exact findExt_at_boundary pre _ _ hpre
  · rw [hlen, findName_skip _ _ _ (fun i h1 h2 => hsep _ (hcomp _ (hmem i h1 h2)).1), hs]
    exact findName_at_boundary pre _ hpre

/-- On a string without NUL, the directory, the name followed by `_out`, and
the extension found by the three searches of `splitpath` spell the text before
the first colon with `_out` inserted before its extension, followed by the
text from that colon on. -/
theorem searches_spell_specOutFile (s : List Char) (hnul : ∀ c ∈ s, c ≠ NUL) :
    s.take (findName s (findExt s (scanEnd s) (scanEnd s)))
        ++ (s.take (findExt s (scanEnd s) (scanEnd s))).drop
            (findName s (findExt s (scanEnd s) (scanEnd s)))
        ++ ['_', 'o', 'u', 't']
        ++ copyString s (findExt s (scanEnd s) (scanEnd s))
      = specOutFile (s.takeWhile (fun c => c ≠ ':')) ++ s.dropWhile (fun c => c ≠ ':') := by
  rw [copyString_eq_drop s hnul, scanEnd_eq_length_takeWhile s hnul]
  have hs : s = s.takeWhile (fun c => c ≠ ':') ++ s.dropWhile (fun c => c ≠ ':') :=
    (List.takeWhile_append_dropWhile _ s).symm
  generalize s.takeWhile (fun c => c ≠ ':') = h at hs ⊢
  generalize s.dropWhile (fun c => c ≠ ':') = y at hs ⊢
  subst hs
  obtain ⟨pre, hh, hpre⟩ := split_at_last (fun c => !isSeparator c) h
  have hpre1 : pre = [] ∨ ∃ x0 c, pre = x0 ++ [c] ∧ isSeparator c = true := by
    rcases hpre with h0 | ⟨x0, c, h1, h2⟩
    · exact Or.inl h0
    · exact Or.inr ⟨x0, c, h1, by simpa using h2⟩
  have hfc : finalComponent h = (h.reverse.takeWhile (fun c => !isSeparator c)).reverse := rfl
  have hcomp : ∀ c ∈ finalComponent h, isSeparator c = false := by
    intro c hc
    rw [hfc, List.mem_reverse] at hc
    simpa using List.mem_takeWhile_imp hc
  rw [← hfc] at hh
  by_cases hdot : '.' ∈ finalComponent h
  · obtain ⟨a, hab, ha⟩ := split_at_last (fun c => c ≠ '.') (finalComponent h)
    have hbmem : ∀ c ∈ ((finalComponent h).reverse.takeWhile (fun c => c ≠ '.')).reverse,
        c ≠ '.' := by
      intro c hc
      rw [List.mem_reverse] at hc
      simpa using List.mem_takeWhile_imp hc
    have hext : specExt h
        = '.' :: ((finalComponent h).reverse.takeWhile (fun c => c ≠ '.')).reverse := by
      unfold specExt; rw [if_pos hdot]
    generalize ((finalComponent h).reverse.takeWhile (fun c => c ≠ '.')).reverse = b
      at hab hbmem hext
    rcases ha with ha0 | ⟨a0, c, ha1, hc⟩
    · exfalso
      rw [ha0, List.nil_append] at hab
      rw [hab] at hdot
      exact hbmem _ hdot rfl
    · have hc1 : c = '.' := by simpa using hc
      subst hc1
      subst ha1
      rw [hab] at hh hcomp
      have hh1 : h = pre ++ (a0 ++ '.' :: b) := by rw [hh]; simp
      have hsr := searches_with_dot pre a0 b y (pre ++ (a0 ++ '.' :: b)).length hpre1
        (fun c hc => hcomp c (by simp [hc]))
        (fun c hc => ⟨hcomp c (by simp [hc]), hbmem c hc⟩)
      have hstem : specStem h = pre ++ a0 := by
        unfold specStem
        rw [hext, hh1]
        have : (pre ++ (a0 ++ '.' :: b)).length - ('.' :: b).length = (pre ++ a0).length := by
          simp; omega
        rw [this]
        have : pre ++ (a0 ++ '.' :: b) = (pre ++ a0) ++ '.' :: b := by simp
        rw [this, List.take_left]
      unfold specOutFile
      rw [hstem, hext, hh1, hsr.1, hsr.2]
      have e1 : pre ++ (a0 ++ '.' :: b) ++ y = pre ++ (a0 ++ ('.' :: b ++ y)) := by simp
      have e2 : pre ++ (a0 ++ '.' :: b) ++ y = (pre ++ a0) ++ ('.' :: b ++ y) := by simp
      rw [show List.take pre.length (pre ++ (a0 ++ '.' :: b) ++ y) = pre by
            rw [e1, List.take_left],
        show List.take (pre ++ a0).length (pre ++ (a0 ++ '.' :: b) ++ y) = pre ++ a0 by
            rw [e2, List.take_left],
        show List.drop (pre ++ a0).length (pre ++ (a0 ++ '.' :: b) ++ y) = '.' :: b ++ y by
            rw [e2, List.drop_left],
        List.drop_left]
      simp
  · have hext : specExt h = [] := by unfold specExt; rw [if_neg hdot]
    have hstem : specStem h = h := by
      unfold specStem; rw [hext]; simp
    have hsr := searches_without_dot pre (finalComponent h) y hpre1
      (fun c hc => ⟨hcomp c hc, fun hcd => hdot (hcd ▸ hc)⟩)
    unfold specOutFile
    rw [hstem, hext]
    generalize finalComponent h = comp at hh hsr
    subst hh
    rw [hsr.1, hsr.2]
    have e1 : pre ++ comp ++ y = pre ++ (comp ++ y) := by simp
    rw [show List.take pre.length (pre ++ comp ++ y) = pre by rw [e1, List.take_left],
      List.take_left, List.drop_left, List.drop_left]
    simp

/-- The first step of `splitpath`: the drive is the drive part of the path and
the searches run on the text after it. -/
theorem splitpath_eq (path : List Char) :
    splitpath path =
      { drv := drivePart path
        dir := (path.drop (drivePart path).length).take
          (findName (path.drop (drivePart path).length)
            (findExt (path.drop (drivePart path).length)
              (scanEnd (path.drop (drivePart path).length))
              (scanEnd (path.drop (drivePart path).length))))
        name := ((path.drop (drivePart path).length).take
            (findExt (path.drop (drivePart path).length)
              (scanEnd (path.drop (drivePart path).length))
              (scanEnd (path.drop (drivePart path).length)))).drop
          (findName (path.drop (drivePart path).length)
            (findExt (path.drop (drivePart path).length)
              (scanEnd (path.drop (drivePart path).length))
              (scanEnd (path.drop (drivePart path).length))))
        ext := copyString (path.drop (drivePart path).length)
          (findExt (path.drop (drivePart path).length)
            (scanEnd (path.drop (drivePart path).length))
            (scanEnd (path.drop (drivePart path).length))) } := by
  have hnc : ¬ (NUL = ':') := by decide
  match path with
  | [] => simp [splitpath, drivePart, charAt]
  | [a] => simp [splitpath, drivePart, charAt, hnc]
  | a :: b :: t =>
    by_cases hd : a ≠ NUL ∧ b = ':'
    · have hd1 : ¬ (a = NUL) := hd.1
      simp [splitpath, drivePart, charAt, hd1, hd.2]
    · have hd1 : a = NUL ∨ ¬ (b = ':') := by tauto
      rcases hd1 with h | h <;> simp [splitpath, drivePart, charAt, h]

/-- The drive part has at most two characters. -/
theorem drivePart_length_le (path : List Char) : (drivePart path).length ≤ 2 := by
  unfold drivePart
  split
  · simp
  · simp

/-- C4 (amended): for every input path without NUL whose directory, name and
extension, as `splitpath` cuts them, each fit the 256-byte array `main`
provides, the output path built by `main` is the drive part of the input (its
first two characters when the second is a colon), then the text up to the next
colon with `_out` inserted immediately before its extension (the suffix that
begins at the last dot of its final path component, empty when that component
has no dot; components end at `/` or `\`), then the text from that colon on. -/
theorem deriveOutFile_eq_spec (path : List Char) (hnul : ∀ c ∈ path, c ≠ NUL)
    (hdir : (splitpath path).dir.length < 256)
    (hname : (splitpath path).name.length < 256)
    (hext : (splitpath path).ext.length < 256) :
    deriveOutFile path
      = some (drivePart path ++ specOutFile (headPart path) ++ streamPart path) := by
  have hdrv : (splitpath path).drv.length < 3 := by
    rw [splitpath_eq]
    exact Nat.lt_succ_of_le (drivePart_length_le path)
  have hlen : ((splitpath path).drv ++ (splitpath path).dir ++ (splitpath path).name
      ++ ['_', 'o', 'u', 't'] ++ (splitpath path).ext).length < 1024 := by
    simp only [List.length_append, List.length_cons, List.length_nil]
    omega
  have hrest : ∀ c ∈ path.drop (drivePart path).length, c ≠ NUL :=
    fun c hc => hnul c (List.mem_of_mem_drop hc)
  have hspell := searches_spell_specOutFile _ hrest
  unfold deriveOutFile
  simp only []
  rw [if_pos ⟨hdrv, hdir, hname, hext⟩, if_pos hlen]
  congr 1
  unfold headPart streamPart
  rw [List.append_assoc (drivePart path), ← hspell, splitpath_eq]
  simp only [List.append_assoc]

/-- The derived name of `d/in.w`, from the general result. -/
theorem deriveOutFile_eq_spec_witness :
    deriveOutFile ['d', '/', 'i', 'n', '.', 'w']
      = some ['d', '/', 'i', 'n', '_', 'o', 'u', 't', '.', 'w'] :=
  (deriveOutFile_eq_spec ['d', '/', 'i', 'n', '.', 'w'] (by decide) (by decide) (by decide)
    (by decide)).trans (by decide)

/-- C4 (counterexample): for the input path `ab:c.w` the extension that begins
at the last dot is `.w`, so the claimed output path is `ab:c_out.w`; `main`
builds `ab_out:c.w`. -/
theorem deriveOutFile_colon_counterexample :
    (∀ c ∈ ['a', 'b', ':', 'c', '.', 'w'], c ≠ NUL) ∧
    specOutFile ['a', 'b', ':', 'c', '.', 'w']
      = ['a', 'b', ':', 'c', '_', 'o', 'u', 't', '.', 'w'] ∧
    deriveOutFile ['a', 'b', ':', 'c', '.', 'w']
      = some ['a', 'b', '_', 'o', 'u', 't', ':', 'c', '.', 'w'] ∧
    deriveOutFile ['a', 'b', ':', 'c', '.', 'w']
      ≠ some (specOutFile ['a', 'b', ':', 'c', '.', 'w']) := by
  decide

/-! ### Exit status and the written header -/

/-- C5 (evaluation at the failing inputs): when the input WAV cannot be read,
and when it is read but the work buffer cannot be allocated, `main` called
with an input and an output file name makes no call on the WAV writer and
ends with status 0. -/
theorem main_status_zero_without_denoising (pcm : Nat) (calloc : Nat → Bool)
    (written : List Char → drwav_data_format → Nat → Nat) (wav : WavInfo)
    (prog in_file out_file : List Char) :
    main { DR_WAVE_FORMAT_PCM := pcm, readFile := fun _ => none, calloc := calloc,
           written := written } [prog, in_file, out_file]
      = some { status := 0, out_file := some out_file, write := none } ∧
    main { DR_WAVE_FORMAT_PCM := pcm, readFile := fun _ => some wav, calloc := fun _ => false,
           written := written } [prog, in_file, out_file]
      = some { status := 0, out_file := some out_file, write := none } := by
  constructor <;> rfl

/-- C8: for every input WAV that is read, every call `WebRtc_DeNoise` makes on
the WAV writer names the given output file and carries a format with the RIFF
container, the PCM format tag, 16 bits per sample and exactly the channel
count and the sample rate that the read reported; and the call is made
whenever the work buffer is allocated and `nsProc` runs. -/
theorem WebRtc_DeNoise_write_format (env : Env) (in_file out_file : List Char) (wav : WavInfo)
    (hread : wavRead_s16 env in_file = some wav) (hrate : wav.sampleRate < 2 ^ 32) :
    (∀ run w, WebRtc_DeNoise env in_file out_file = some run → run.write = some w →
      w.filename = out_file ∧
      w.format = { container := drwav_container.drwav_container_riff
                   format := env.DR_WAVE_FORMAT_PCM
                   channels := wav.channels
                   sampleRate := wav.sampleRate
                   bitsPerSample := 16 }) ∧
    (env.calloc wav.totalSampleCount = true →
      (nsProc wav.totalSampleCount wav.sampleRate (toInt32 wav.channels)).isSome = true →
      ∃ run w, WebRtc_DeNoise env in_file out_file = some run ∧ run.write = some w) := by
  have hsr : toUInt32 (wav.sampleRate : Int) = wav.sampleRate := by
    unfold toUInt32
    omega
  have key : WebRtc_DeNoise env in_file out_file =
      if env.calloc wav.totalSampleCount = true then
        (nsProc wav.totalSampleCount wav.sampleRate (toInt32 wav.channels)).map (fun r =>
          { processed := some r.2
            write := some (wavWrite_s16 env out_file wav.sampleRate
              (toUInt32 wav.totalSampleCount) wav.channels).1
            exited := (wavWrite_s16 env out_file wav.sampleRate
              (toUInt32 wav.totalSampleCount) wav.channels).2 })
      else some { processed := none, write := none, exited := none } := by
    unfold WebRtc_DeNoise
    rw [hread]
    by_cases hc : env.calloc wav.totalSampleCount = true
    · rw [if_pos hc]
      show (if env.calloc wav.totalSampleCount = true then _ else _) = _
      rw [if_pos hc]
      generalize nsProc wav.totalSampleCount wav.sampleRate (toInt32 wav.channels) = res
      match res with
      | none => rfl
      | some (_, _) => rfl
    · rw [if_neg hc]
      show (if env.calloc wav.totalSampleCount = true then _ else _) = _
      rw [if_neg hc]
  rw [key]
  constructor
  · intro run w hrun hw
    by_cases hc : env.calloc wav.totalSampleCount = true
    · rw [if_pos hc] at hrun
      cases hp : nsProc wav.totalSampleCount wav.sampleRate (toInt32 wav.channels) with
      | none => rw [hp] at hrun; cases hrun
      | some r =>
        rw [hp] at hrun
        cases hrun
        cases hw
        refine ⟨rfl, ?_⟩
        show ({ container := drwav_container.drwav_container_riff
                format := env.DR_WAVE_FORMAT_PCM
                channels := wav.channels
                sampleRate := toUInt32 wav.sampleRate
                bitsPerSample := sizeofInt16 * 8 } : drwav_data_format) = _
        rw [hsr]
        rfl
    · rw [if_neg hc] at hrun
      cases hrun
      cases hw
  · intro hc hp
    rw [if_pos hc]
    cases hq : nsProc wav.totalSampleCount wav.sampleRate (toInt32 wav.channels) with
    | none => rw [hq] at hp; cases hp
    | some r => exact ⟨_, _, rfl, rfl⟩

/-- The header written for a 16 kHz stereo input of two chunks, from the
general result. -/
theorem WebRtc_DeNoise_write_format_witness :
    ∃ run w,
      WebRtc_DeNoise
          { DR_WAVE_FORMAT_PCM := 1
            readFile := fun _ => some { channels := 2, sampleRate := 16000, totalSampleCount := 320 }
            calloc := fun _ => true
            written := fun _ _ n => n } ['i'] ['o'] = some run ∧
        run.write = some w :=
  (WebRtc_DeNoise_write_format
      { DR_WAVE_FORMAT_PCM := 1
        readFile := fun _ => some { channels := 2, sampleRate := 16000, totalSampleCount := 320 }
        calloc := fun _ => true
        written := fun _ _ n => n } ['i'] ['o']
      { channels := 2, sampleRate := 16000, totalSampleCount := 320 } rfl (by decide)).2
    rfl (by decide)

/-! ### Accessors of `AudioBuffer`, band sizes, checks and filter states -/

/-- C6: without split storage, `split_bands` and `split_bands_const` return
the bands view of `data_`, `split_channels_const` of band 0 returns what
`channels_const()` returns and `split_channels_const` of any other band
returns null; with split storage all three return views of `split_data_`. -/
theorem split_accessors_follow_storage {CB P : Type} (v : ChannelBufferViews CB P)
    (data split : CB) (channel : Nat) (band : Band) :
    AudioBuffer.split_bands v { data_ := data, split_data_ := none } channel
        = some (v.bands data channel) ∧
    AudioBuffer.split_bands_const v { data_ := data, split_data_ := none } channel
        = some (v.bands data channel) ∧
    AudioBuffer.split_channels_const v { data_ := data, split_data_ := none } Band.kBand0To8kHz
        = AudioBuffer.channels_const v { data_ := data, split_data_ := none } ∧
    AudioBuffer.channels_const v { data_ := data, split_data_ := none }
        = some (v.channels data) ∧
    (band ≠ Band.kBand0To8kHz →
      AudioBuffer.split_channels_const v { data_ := data, split_data_ := none } band = none) ∧
    AudioBuffer.split_bands v { data_ := data, split_data_ := some split } channel
        = some (v.bands split channel) ∧
    AudioBuffer.split_bands_const v { data_ := data, split_data_ := some split } channel
        = some (v.bands split channel) ∧
    AudioBuffer.split_channels_const v { data_ := data, split_data_ := some split } band
        = some (v.channelsOfBand split band.toNat) := by
  refine ⟨rfl, rfl, rfl, rfl, ?_, rfl, rfl, rfl⟩
  intro hb
  simp [AudioBuffer.split_channels_const, hb]

/-- The accessors of a buffer whose views are tagged numbers, from the general
result: the band 8-16 kHz of an unsplit buffer is null. -/
theorem split_accessors_follow_storage_witness :
    AudioBuffer.split_channels_const
        ({ channels := fun d => (d, 0, 0), channelsOfBand := fun d b => (d, 1, b),
           bands := fun d c => (d, 2, c) } : ChannelBufferViews Nat (Nat × Nat × Nat))
        { data_ := 7, split_data_ := none } Band.kBand8To16kHz = none :=
  (split_accessors_follow_storage
      ({ channels := fun d => (d, 0, 0), channelsOfBand := fun d b => (d, 1, b),
         bands := fun d c => (d, 2, c) } : ChannelBufferViews Nat (Nat × Nat × Nat))
      7 7 0 Band.kBand8To16kHz).2.2.2.2.1 (by decide)

/-- C7 (amended): at 32000 Hz and at 48000 Hz, both above the 16000 Hz at which
the harness starts to split, the frame length is `B * kSplitBandSize` with
`B = rate / 16000` bands, 2 and 3 respectively (320 = 2 * 160, 480 = 3 * 160),
so `2 <= B <= kMaxNumBands` and each band has `kMaxSplitFrameLength = 160`
samples. -/
theorem num_frames_whole_bands (r : Int) (hr : r = 32000 ∨ r = 48000) (c : Nat) (kb : Bool) :
    16000 < r ∧
    2 ≤ (r / 16000).toNat ∧ (r / 16000).toNat ≤ kMaxNumBands ∧
    (StreamConfig.new r c kb).num_frames = (r / 16000).toNat * kSplitBandSize ∧
    (StreamConfig.new r c kb).num_frames / (r / 16000).toNat = kMaxSplitFrameLength := by
  have hnf : (StreamConfig.new r c kb).num_frames = calculate_frames r := rfl
  rw [hnf]
  rcases hr with rfl | rfl
  · exact ⟨by decide, by decide, by decide, by decide, by decide⟩
  · exact ⟨by decide, by decide, by decide, by decide, by decide⟩

/-- The 48 kHz frame of 480 samples is three bands of 160, from the general
result. -/
theorem num_frames_whole_bands_witness :
    (StreamConfig.new 48000 1 false).num_frames = 3 * kSplitBandSize :=
  (num_frames_whole_bands 48000 (Or.inr rfl) 1 false).2.2.2.1

/-- C7 (counterexample): at 24000 Hz, a supported rate above 16000 Hz, the
frame has 240 samples, which is `B * kSplitBandSize` for no whole `B`. -/
theorem num_frames_24k_not_whole_bands :
    (24000 : Int) ∈ supportedRates ∧ (16000 : Int) < 24000 ∧
    (StreamConfig.new 24000 1 false).num_frames = 240 ∧
    ¬ ∃ B : Nat, 2 ≤ B ∧ B ≤ kMaxNumBands ∧
        (StreamConfig.new 24000 1 false).num_frames = B * kSplitBandSize := by
  refine ⟨by decide, by decide, by decide, ?_⟩
  rintro ⟨B, _, _, h⟩
  have h240 : (StreamConfig.new 24000 1 false).num_frames = 240 := by decide
  rw [h240] at h
  unfold kSplitBandSize at h
  omega

/-- C9 (amended): `RTC_CHECK`, and `RTC_DCHECK` while `RTC_DCHECK_IS_ON` is 1,
print one line when the condition is false and nothing when it is true; in
both cases the check leaves the program state as it was and control goes on
to the statement after the check, which runs. `RTC_DCHECK` with
`RTC_DCHECK_IS_ON` equal to 0 prints nothing for either value of the
condition. -/
theorem checks_report_and_continue {σ : Type} (flags : BuildFlags) (file : String) (line : Nat)
    (text : String) (condition : σ → Bool) (rest : σ → σ) (m : Machine σ) :
    RTC_CHECK flags file line text condition m =
      ({ out := if condition m.state then m.out
                else m.out ++ ["[" ++ file ++ ":" ++ toString line ++ "]"
                  ++ RTC_CHECK_EVAL_MESSAGE flags ("CHECK failed: " ++ text) ++ " \n"]
         state := m.state }, Flow.next) ∧
    RTC_DCHECK flags file line text condition m =
      ({ out := if RTC_DCHECK_IS_ON flags && !condition m.state
                then m.out ++ ["[" ++ file ++ ":" ++ toString line ++ "]"
                  ++ RTC_CHECK_EVAL_MESSAGE flags ("DCHECK failed: " ++ text) ++ " \n"]
                else m.out
         state := m.state }, Flow.next) ∧
    ((RTC_CHECK flags file line text condition).seq (Stmt.update rest) m).1.state
      = rest m.state ∧
    ((RTC_DCHECK flags file line text condition).seq (Stmt.update rest) m).1.state
      = rest m.state ∧
    RTC_DCHECK { flags with NDEBUG := true, DCHECK_ALWAYS_ON := false } file line text
      condition m = (m, Flow.next) := by
  have hc : RTC_CHECK flags file line text condition m =
      ({ out := if condition m.state then m.out
                else m.out ++ ["[" ++ file ++ ":" ++ toString line ++ "]"
                  ++ RTC_CHECK_EVAL_MESSAGE flags ("CHECK failed: " ++ text) ++ " \n"]
         state := m.state }, Flow.next) := by
    unfold RTC_CHECK
    cases h : condition m.state
    · rfl
    · rfl
  have hd : RTC_DCHECK flags file line text condition m =
      ({ out := if RTC_DCHECK_IS_ON flags && !condition m.state
                then m.out ++ ["[" ++ file ++ ":" ++ toString line ++ "]"
                  ++ RTC_CHECK_EVAL_MESSAGE flags ("DCHECK failed: " ++ text) ++ " \n"]
                else m.out
         state := m.state }, Flow.next) := by
    unfold RTC_DCHECK
    cases h : (RTC_DCHECK_IS_ON flags && !condition m.state)
    · rfl
    · rfl
  refine ⟨hc, hd, ?_, ?_, rfl⟩
  · unfold Stmt.seq
    rw [hc]
    rfl
  · unfold Stmt.seq
    rw [hd]
    rfl

/-- C9 (counterexample): after a failed `RTC_CHECK` control reaches the next
statement, here an increment of a counter that starts at 0, and the counter
ends at 1: the statement after the check has run and changed the state. -/
theorem failed_check_does_not_stop :
    (RTC_CHECK { NDEBUG := false, DCHECK_ALWAYS_ON := false, RTC_DISABLE_CHECK_MSG := false }
        "main.cc" 1 "false" (fun _ : Nat => false) { out := [], state := 0 }).2 = Flow.next ∧
    ((RTC_CHECK { NDEBUG := false, DCHECK_ALWAYS_ON := false, RTC_DISABLE_CHECK_MSG := false }
        "main.cc" 1 "false" (fun _ : Nat => false)).seq (Stmt.update (fun n => n + 1))
        { out := [], state := 0 }).1.state = 1 ∧
    ((RTC_CHECK { NDEBUG := false, DCHECK_ALWAYS_ON := false, RTC_DISABLE_CHECK_MSG := false }
        "main.cc" 1 "false" (fun _ : Nat => false)).seq (Stmt.update (fun n => n + 1))
        { out := [], state := 0 }).1.state
      ≠ ({ out := [], state := 0 } : Machine Nat).state := by
  refine ⟨rfl, rfl, ?_⟩
  intro h
  exact absurd h (by decide)

/-- C10: a freshly constructed `TwoBandsStates` holds four arrays of
`kStateSize = 6` entries each, 24 entries in all, and every entry is 0. -/
theorem TwoBandsStates_new_all_zero :
    kStateSize = 6 ∧
    TwoBandsStates.new =
      { analysis_state1 := [0, 0, 0, 0, 0, 0]
        analysis_state2 := [0, 0, 0, 0, 0, 0]
        synthesis_state1 := [0, 0, 0, 0, 0, 0]
        synthesis_state2 := [0, 0, 0, 0, 0, 0] } ∧
    TwoBandsStates.new.analysis_state1.length = kStateSize ∧
    TwoBandsStates.new.analysis_state2.length = kStateSize ∧
    TwoBandsStates.new.synthesis_state1.length = kStateSize ∧
    TwoBandsStates.new.synthesis_state2.length = kStateSize ∧
    (TwoBandsStates.new.analysis_state1 ++ TwoBandsStates.new.analysis_state2
      ++ TwoBandsStates.new.synthesis_state1 ++ TwoBandsStates.new.synthesis_state2).length
      = 24 ∧
    ∀ x ∈ TwoBandsStates.new.analysis_state1 ++ TwoBandsStates.new.analysis_state2
      ++ TwoBandsStates.new.synthesis_state1 ++ TwoBandsStates.new.synthesis_state2, x = 0 := by
  decide

/-! ### `splitpath` as a partition of the path -/

/-- The backward search for the start of the name never moves forward. -/
theorem findName_le (s : List Char) : ∀ e : Nat, findName s e ≤ e := by
  intro e
  induction e with
  | zero => exact Nat.le_refl 0
  | succ e ih =>
    rw [findName]
    split
    · exact Nat.le_refl _
    · exact Nat.le_succ_of_le ih

/-- Between the start of the name and the position where the backward search
began there is no separator. -/
theorem findName_no_separator (s : List Char) :
    ∀ e i : Nat, findName s e ≤ i → i < e → charAt s i ≠ '\\' ∧ charAt s i ≠ '/' := by
  intro e
  induction e with
  | zero => intro i _ h; exact absurd h (Nat.not_lt_zero i)
  | succ e ih =>
    intro i hlo hhi
    rw [findName] at hlo
    by_cases hsep : charAt s e = '\\' ∨ charAt s e = '/'
    · rw [if_pos hsep] at hlo
      omega
    · rw [if_neg hsep] at hlo
      by_cases hie : i = e
      · subst hie
        exact ⟨fun h => hsep (Or.inl h), fun h => hsep (Or.inr h)⟩
      · exact ih i hlo (by omega)

/-- Every character of the slice `s[p..e)` is read at a position of that
range. -/
theorem mem_slice (s : List Char) (p e : Nat) (c : Char) (hc : c ∈ (s.take e).drop p) :
    ∃ i, p ≤ i ∧ i < e ∧ charAt s i = c := by
  obtain ⟨k, hk, hget⟩ := List.mem_iff_getElem.mp hc
  have hlen : p + k < e ∧ p + k < s.length := by
    simp only [List.length_drop, List.length_take] at hk
    omega
  refine ⟨p + k, Nat.le_add_right p k, hlen.1, ?_⟩
  rw [List.getElem_drop, List.getElem_take] at hget
  unfold charAt
  rw [List.getD_eq_getElem _ _ hlen.2]
  exact hget

/-- The drive part followed by the text after it is the path. -/
theorem drivePart_append_drop (path : List Char) :
    drivePart path ++ path.drop (drivePart path).length = path := by
  unfold drivePart
  split
  · have h2 : (List.take 2 path).length ≤ 2 := by simp
    rcases Nat.lt_or_ge path.length 2 with hlt | hge
    · rw [List.take_of_length_le (Nat.le_of_lt hlt), List.drop_length]
      simp
    · have : (List.take 2 path).length = 2 := by simp; omega
      rw [this, List.take_append_drop]
  · simp

/-- In a path without NUL the drive test of `splitpath` only depends on the
second character. -/
theorem drivePart_eq_of_second (path : List Char) (hnul : ∀ c ∈ path, c ≠ NUL) :
    drivePart path = if charAt path 1 = ':' then path.take 2 else [] := by
  unfold drivePart
  have hnc : ¬ (NUL = ':') := by decide
  match path, hnul with
  | [], _ => simp [charAt, hnc]
  | [a], _ => simp [charAt, hnc]
  | a :: b :: t, hnul =>
    have ha : a ≠ NUL := hnul a (List.mem_cons_self _ _)
    simp [charAt, ha]

/-- C11: for every path without NUL, the four strings `splitpath` stores
through non-null output pointers concatenate to the path (`drv ++ dir ++ name
++ ext`), `drv` is the first two characters of the path when its second
character is a colon and empty otherwise, and `name` contains neither `/` nor
a backslash. -/
theorem splitpath_partitions (path : List Char) (hnul : ∀ c ∈ path, c ≠ NUL) :
    (splitpath path).drv ++ (splitpath path).dir ++ (splitpath path).name
        ++ (splitpath path).ext = path ∧
    (splitpath path).drv = (if charAt path 1 = ':' then path.take 2 else []) ∧
    ∀ c ∈ (splitpath path).name, c ≠ '/' ∧ c ≠ '\\' := by
  have hrest : ∀ c ∈ path.drop (drivePart path).length, c ≠ NUL :=
    fun c hc => hnul c (List.mem_of_mem_drop hc)
  rw [splitpath_eq]
  generalize hs : path.drop (drivePart path).length = s at hrest
  generalize he : findExt s (scanEnd s) (scanEnd s) = e
  have hp : findName s e ≤ e := findName_le s e
  refine ⟨?_, drivePart_eq_of_second path hnul, ?_⟩
  · show drivePart path ++ s.take (findName s e) ++ (s.take e).drop (findName s e)
        ++ copyString s e = path
    rw [copyString_eq_drop s hrest]
    have h1 : s.take (findName s e) ++ (s.take e).drop (findName s e) = s.take e := by
      have := List.take_append_drop (findName s e) (s.take e)
      rw [List.take_take, Nat.min_eq_left hp] at this
      exact this
    rw [List.append_assoc (drivePart path), h1, List.append_assoc, List.take_append_drop,
      ← hs]
    exact drivePart_append_drop path
  · intro c hc
    obtain ⟨i, hlo, hhi, hch⟩ := mem_slice s (findName s e) e c hc
    have := findName_no_separator s e i hlo hhi
    rw [hch] at this
    exact ⟨this.2, this.1⟩

/-- The four parts of `C:\a/b.c`, from the general result. -/
theorem splitpath_partitions_witness :
    (splitpath ['C', ':', '\\', 'a', '/', 'b', '.', 'c']).drv
        ++ (splitpath ['C', ':', '\\', 'a', '/', 'b', '.', 'c']).dir
        ++ (splitpath ['C', ':', '\\', 'a', '/', 'b', '.', 'c']).name
        ++ (splitpath ['C', ':', '\\', 'a', '/', 'b', '.', 'c']).ext
      = ['C', ':', '\\', 'a', '/', 'b', '.', 'c'] :=
  (splitpath_partitions ['C', ':', '\\', 'a', '/', 'b', '.', 'c'] (by decide)).1

/-! ### The invariant of `StreamConfig` -/

/-- The constructor and every setter keep `num_frames_` equal to the frame
count of the stored sample rate. -/
theorem StreamConfig.calls_keeps_frames (cfg : StreamConfig) (cs : List StreamConfig.SetterCall)
    (h : cfg.num_frames_ = calculate_frames cfg.sample_rate_hz_) :
    (cfg.calls cs).num_frames_ = calculate_frames (cfg.calls cs).sample_rate_hz_ := by
  induction cs generalizing cfg with
  | nil => exact h
  | cons c cs ih =>
    rw [StreamConfig.calls]
    apply ih
    cases c with
    | set_sample_rate_hz value => rfl
    | set_num_channels value => exact h
    | set_has_keyboard value => exact h

/-- C12: every `StreamConfig` obtained from the constructor by a sequence of
setter calls has `num_frames()` equal to `calculate_frames(sample_rate_hz())` and
`num_samples()` equal to the `size_t` product `num_channels() * num_frames()`,
which is the exact product whenever that is below `2 ^ 64`; two such configs
that compare equal under `operator==`, that is, agree on sample rate, channel
count and keyboard flag, have equal `num_frames()` and equal `num_samples()`;
and `operator!=` is the negation of `operator==`. -/
theorem StreamConfig_invariant (r1 r2 : Int) (c1 c2 : Nat) (kb1 kb2 : Bool)
    (cs1 cs2 : List StreamConfig.SetterCall) :
    ((StreamConfig.new r1 c1 kb1).calls cs1).num_frames
      = calculate_frames ((StreamConfig.new r1 c1 kb1).calls cs1).sample_rate_hz ∧
    ((StreamConfig.new r1 c1 kb1).calls cs1).num_samples
      = (((StreamConfig.new r1 c1 kb1).calls cs1).num_channels
          * ((StreamConfig.new r1 c1 kb1).calls cs1).num_frames) % 2 ^ 64 ∧
    (((StreamConfig.new r1 c1 kb1).calls cs1).num_channels
        * ((StreamConfig.new r1 c1 kb1).calls cs1).num_frames < 2 ^ 64 →
      ((StreamConfig.new r1 c1 kb1).calls cs1).num_samples
        = ((StreamConfig.new r1 c1 kb1).calls cs1).num_channels
            * ((StreamConfig.new r1 c1 kb1).calls cs1).num_frames) ∧
    (((StreamConfig.new r1 c1 kb1).calls cs1).eq ((StreamConfig.new r2 c2 kb2).calls cs2) = true ↔
      ((StreamConfig.new r1 c1 kb1).calls cs1).sample_rate_hz
          = ((StreamConfig.new r2 c2 kb2).calls cs2).sample_rate_hz ∧
        ((StreamConfig.new r1 c1 kb1).calls cs1).num_channels
          = ((StreamConfig.new r2 c2 kb2).calls cs2).num_channels ∧
        ((StreamConfig.new r1 c1 kb1).calls cs1).has_keyboard
          = ((StreamConfig.new r2 c2 kb2).calls cs2).has_keyboard) ∧
    (((StreamConfig.new r1 c1 kb1).calls cs1).eq ((StreamConfig.new r2 c2 kb2).calls cs2) = true →
      ((StreamConfig.new r1 c1 kb1).calls cs1).num_frames
          = ((StreamConfig.new r2 c2 kb2).calls cs2).num_frames ∧
        ((StreamConfig.new r1 c1 kb1).calls cs1).num_samples
          = ((StreamConfig.new r2 c2 kb2).calls cs2).num_samples) ∧
    ((StreamConfig.new r1 c1 kb1).calls cs1).ne ((StreamConfig.new r2 c2 kb2).calls cs2)
      = !(((StreamConfig.new r1 c1 kb1).calls cs1).eq ((StreamConfig.new r2 c2 kb2).calls cs2)) := by
  have ha := StreamConfig.calls_keeps_frames (StreamConfig.new r1 c1 kb1) cs1 rfl
  have hb := StreamConfig.calls_keeps_frames (StreamConfig.new r2 c2 kb2) cs2 rfl
  generalize (StreamConfig.new r1 c1 kb1).calls cs1 = a at ha
  generalize (StreamConfig.new r2 c2 kb2).calls cs2 = b at hb
  have heq : a.eq b = true ↔
      a.sample_rate_hz = b.sample_rate_hz ∧ a.num_channels = b.num_channels ∧
        a.has_keyboard = b.has_keyboard := by
    unfold StreamConfig.eq StreamConfig.sample_rate_hz StreamConfig.num_channels
      StreamConfig.has_keyboard
    rw [Bool.and_eq_true, Bool.and_eq_true, beq_iff_eq, beq_iff_eq, beq_iff_eq, and_assoc]
  refine ⟨ha, rfl, ?_, heq, ?_, rfl⟩
  · intro hlt
    exact Nat.mod_eq_of_lt hlt
  · intro h
    obtain ⟨hr, hc, _⟩ := heq.mp h
    have hr1 : a.sample_rate_hz_ = b.sample_rate_hz_ := hr
    have hc1 : a.num_channels_ = b.num_channels_ := hc
    have hf : a.num_frames_ = b.num_frames_ := by rw [ha, hb, hr1]
    refine ⟨hf, ?_⟩
    unfold StreamConfig.num_samples
    rw [hc1, hf]

/-- Two routes to a 48 kHz stereo configuration give 480 frames and 960
samples, from the general result. -/
theorem StreamConfig_invariant_witness :
    ((StreamConfig.new 16000 1 false).calls
        [StreamConfig.SetterCall.set_sample_rate_hz 48000,
          StreamConfig.SetterCall.set_num_channels 2]).num_frames
      = ((StreamConfig.new 48000 2 false).calls []).num_frames ∧
    ((StreamConfig.new 16000 1 false).calls
        [StreamConfig.SetterCall.set_sample_rate_hz 48000,
          StreamConfig.SetterCall.set_num_channels 2]).num_samples
      = ((StreamConfig.new 48000 2 false).calls []).num_samples :=
  (StreamConfig_invariant 16000 48000 1 2 false false
      [StreamConfig.SetterCall.set_sample_rate_hz 48000,
        StreamConfig.SetterCall.set_num_channels 2] []).2.2.2.2.1 (by decide)

end WebRtcNs
